import Mathlib

/-!
Verification of the ekslogs log-retrieval core against its specification.

The definitions below are a shallow embedding of the Go sources:
  pkg/log/log.go        (string classifiers, LogEntry)
  pkg/aws/client.go     (GetLogs pagination/limit loop, stream resolution,
                         TailLogs dedup/watermark/prune, cancellation handling)
  cmd/root.go           (filter-pattern quoting and combination)
Go machine integers: the only integer arithmetic is the int32 totalEvents
counter and limit.  The counter only ever increments while strictly below
limit (or below the number of events actually received), so it never wraps;
a non-positive limit behaves exactly like 0 (the check `limit > 0 &&
totalEvents >= limit` is false), so limits are modelled as Nat with 0 =
unlimited.  Event timestamps are int64 UnixMilli values, modelled as Int.
-/

namespace Ekslogs

/-! ## Go string primitives

String operations are modelled on the underlying character lists so that the
kernel can evaluate them.  For the ASCII inputs handled here this agrees with
Go byte-wise semantics. -/

/-- Go strings.HasPrefix s pre. -/
def goStartsWith (s pre : String) : Bool := decide (pre.data <+: s.data)

/-- Go strings.HasSuffix s suf. -/
def goEndsWith (s suf : String) : Bool := decide (suf.data <:+ s.data)

/-- Go strings.Contains s sub for a single-character sub. -/
def goContainsChar (s : String) (c : Char) : Bool := decide (c ∈ s.data)

/-- Go strings.Contains s sub. -/
def goContainsStr (s sub : String) : Bool := decide (sub.data <:+: s.data)

/-! ## pkg/log/log.go -/

/-- ExtractLogLevel (log.go 129-160): classify by the first byte of the
message (Kubernetes klog format), falling back to JSON "level" markers. -/
def extractLogLevel (message : String) : String :=
  match message.data with
  | [] => ""
  | c :: _ =>
    if c = 'I' then "info"
    else if c = 'W' then "warning"
    else if c = 'E' then "error"
    else if c = 'F' then "fatal"
    else
      if goContainsStr message "\"level\":\"" then
        if goContainsStr message "\"level\":\"info\"" then "info"
        else if goContainsStr message "\"level\":\"warning\"" then "warning"
        else if goContainsStr message "\"level\":\"error\"" then "error"
        else ""
      else ""

/-- ExtractComponentFromStreamName (log.go 162-177). -/
def extractComponentFromStreamName (streamName : String) : String :=
  if goStartsWith streamName "kube-apiserver-audit-" then "kube-apiserver-audit"
  else if goStartsWith streamName "kube-apiserver-" then "kube-apiserver"
  else if goStartsWith streamName "authenticator-" then "authenticator"
  else if goStartsWith streamName "kube-controller-manager-" then "kube-controller-manager"
  else if goStartsWith streamName "cloud-controller-manager-" then "cloud-controller-manager"
  else if goStartsWith streamName "kube-scheduler-" then "kube-scheduler"
  else "unknown"

/-- ExtractLogTypeFromStreamName (log.go 179-195). -/
def extractLogTypeFromStreamName (streamName : String) : String :=
  if goStartsWith streamName "kube-apiserver-audit-" then "audit"
  else if goStartsWith streamName "kube-apiserver-" then "api"
  else if goStartsWith streamName "authenticator-" then "authenticator"
  else if goStartsWith streamName "kube-controller-manager-" then "kcm"
  else if goStartsWith streamName "cloud-controller-manager-" then "ccm"
  else if goStartsWith streamName "kube-scheduler-" then "scheduler"
  else ""

/-- NormalizeLogType (log.go 79-105).  The Go map literal is modelled as an
association list; the keys are pairwise distinct so lookup order is
immaterial. -/
def normalizeLogType (logType : String) : String :=
  let logTypeMap : List (String × String) :=
    [("api", "api"), ("audit", "audit"), ("auth", "authenticator"),
     ("authenticator", "authenticator"), ("kcm", "kcm"), ("ccm", "ccm"),
     ("sched", "scheduler"), ("scheduler", "scheduler"),
     ("kubeControllerManager", "kcm"), ("cloudControllerManager", "ccm"),
     ("kube-controller-manager", "kcm"), ("cloud-controller-manager", "ccm"),
     ("controller", "kcm"), ("cloud", "ccm")]
  match logTypeMap.lookup logType with
  | some v => v
  | none => logType

/-- LogEntry (log.go 13-20).  Timestamp is the event's UnixMilli instant. -/
structure LogEntry where
  timestamp : Int
  level : String
  component : String
  message : String
  logGroup : String
  logStream : String
deriving DecidableEq, Repr

/-! ## pkg/aws/client.go — GetLogs

One raw CloudWatch FilteredLogEvent as GetLogs receives it: every field is a
nullable pointer. -/

structure ProviderEvent where
  timestamp : Option Int
  logStreamName : Option String
  message : Option String
deriving DecidableEq, Repr

/-- Event well-formedness as checked at client.go 247. -/
def wellFormed (e : ProviderEvent) : Bool :=
  e.timestamp.isSome && e.logStreamName.isSome && e.message.isSome

/-- Inner event loop of GetLogs (client.go 246-267): for each well-formed
event, stop (Go break) once the per-goroutine counter totalEvents has
reached a positive limit, otherwise build the LogEntry, hand it to the sink
and count it; malformed events are skipped without counting.  Returns the
entries handed to the sink, in order, together with the updated counter. -/
def processPage (lg : String) (limit : Nat) (totalEvents : Nat) :
    List ProviderEvent → List LogEntry × Nat
  | [] => ([], totalEvents)
  | ⟨some ts, some sn, some msg⟩ :: rest =>
    if limit > 0 ∧ totalEvents ≥ limit then ([], totalEvents)
    else
      let entry : LogEntry :=
        ⟨ts, extractLogLevel msg, extractComponentFromStreamName sn, msg, lg, sn⟩
      let r := processPage lg limit (totalEvents + 1) rest
      (entry :: r.1, r.2)
  | _ :: rest => processPage lg limit totalEvents rest

/-- Pagination loop of one GetLogs goroutine (client.go 227-281).  The i-th
list element is the outcome of the i-th FilterLogEvents call: an error, or
the page of events together with an implicit continuation token (a token is
present exactly when further calls follow in the list).  On a failed call
the goroutine pushes a warning and returns; after a page it stops when the
limit is reached, when no token is present, or when the page is empty.
Returns (entries delivered to the sink, final totalEvents, warning). -/
def fetchLoop (lg : String) (limit : Nat) (totalEvents : Nat) :
    List (Except String (List ProviderEvent)) → List LogEntry × Nat × Option String
  | [] => ([], totalEvents, none)
  | .error msg :: _ =>
    ([], totalEvents,
      some ("warning: failed to get logs from log group '" ++ lg ++ "': " ++ msg))
  | .ok evs :: rest =>
    let p := processPage lg limit totalEvents evs
    if limit > 0 ∧ p.2 ≥ limit then (p.1, p.2, none)
    else if rest.isEmpty || evs.isEmpty then (p.1, p.2, none)
    else
      let r := fetchLoop lg limit p.2 rest
      (p.1 ++ r.1, r.2.1, r.2.2)

/-- What the provider hands one GetLogs goroutine for its log group: either
the stream-resolution step fails (DescribeLogStreams error or log-type
resolution error, client.go 156-191), or it succeeds and the successive
FilterLogEvents calls give these results. -/
inductive GroupData where
  | streamsErr (msg : String)
  | pages (calls : List (Except String (List ProviderEvent)))

structure GroupFetch where
  name : String
  data : GroupData

/-- One GetLogs goroutine (client.go 150-282): entries delivered to the sink
and the warning pushed on errChan, if any. -/
def runGroup (limit : Nat) (g : GroupFetch) : List LogEntry × Option String :=
  match g.data with
  | .streamsErr msg =>
    ([], some ("warning: failed to describe log streams for log group '"
               ++ g.name ++ "': " ++ msg))
  | .pages calls =>
    let r := fetchLoop g.name limit 0 calls
    (r.1, r.2.2)

/-- GetLogs fan-out stage (client.go 145-293): one goroutine per group, each
with its own totalEvents counter starting at 0; the sink sees the groups'
entries (cross-group order is unspecified in the code — the goroutines only
append to the sink and the error channel, so counts, membership and the
collected warnings are interleaving-independent; the model fixes group
order), and the warnings are collected from errChan. -/
def getLogs (limit : Nat) (groups : List GroupFetch) : List LogEntry × List String :=
  ((groups.map (fun g => (runGroup limit g).1)).flatten,
   groups.filterMap (fun g => (runGroup limit g).2))

/-- Return value of GetLogs (client.go 288-298): nil when no warnings were
collected, otherwise one aggregate error wrapping all of them. -/
def getLogsResult (limit : Nat) (groups : List GroupFetch) : Except (List String) Unit :=
  match (getLogs limit groups).2 with
  | [] => .ok ()
  | e :: rest => .error (e :: rest)

/-- Number of well-formed events on one page. -/
def wfCount (evs : List ProviderEvent) : Nat := (evs.filter wellFormed).length

/-- Well-formed events exposed by one FilterLogEvents outcome. -/
def callWf : Except String (List ProviderEvent) → Nat
  | .ok evs => wfCount evs
  | .error _ => 0

/-- Total well-formed events exposed by a group's pagination. -/
def wfTotal (calls : List (Except String (List ProviderEvent))) : Nat :=
  (calls.map callWf).sum

/-- A group whose pagination runs cleanly: every FilterLogEvents call
succeeds and returns a non-empty page (so the loop is never cut short by an
error or an empty page). -/
def GoodGroup (g : GroupFetch) : Prop :=
  ∃ calls, g.data = .pages calls ∧
    ∀ c ∈ calls, ∃ evs, c = Except.ok evs ∧ evs ≠ []

/-- Total well-formed events a group exposes. -/
def groupAvail (g : GroupFetch) : Nat :=
  match g.data with
  | .streamsErr _ => 0
  | .pages calls => wfTotal calls

/-- Fixed page size (client.go 217). -/
def pageSize : Nat := 1000

/-- Limit field of each FilterLogEvents request a goroutine issues:
input.Limit is assigned pageSize once before the loop (client.go 217-218)
and never reassigned, so every request carries pageSize.  The recursion
mirrors fetchLoop: one entry per issued call. -/
def requestLimits (lg : String) (limit : Nat) (totalEvents : Nat) :
    List (Except String (List ProviderEvent)) → List Nat
  | [] => []
  | .error _ :: _ => [pageSize]
  | .ok evs :: rest =>
    let p := processPage lg limit totalEvents evs
    if limit > 0 ∧ p.2 ≥ limit then [pageSize]
    else if rest.isEmpty || evs.isEmpty then [pageSize]
    else pageSize :: requestLimits lg limit p.2 rest

/-! ## pkg/aws/client.go — stream resolution

Both stream listings pass Limit 50 to DescribeLogStreams; the listing used
for event queries (client.go 176-181 and 335-341) orders by LastEventTime
descending, while the availability scan (client.go 305-308) passes no
OrderBy, so the provider returns the first at most 50 streams in its default
log-stream-name order.  The two response lists are inputs of the model. -/

/-- Body of getAvailableLogTypes for one group's listing (client.go
313-328): the log types extracted from the listed stream names, empty
extraction dropped.  The Go set is consulted only through membership, so
deduplication and iteration order are immaterial and omitted. -/
def availableLogTypesOf (streams : List String) : List String :=
  (streams.map extractLogTypeFromStreamName).filter (fun t => t ≠ "")

/-- LogStreamNames restriction attached to one group's FilterLogEvents
request (client.go 153-199).  `byName50` is the availability listing (no
OrderBy), `byRecent50` the LastEventTime-descending listing; `none` means
the request carries no stream restriction (client.go 197-199 sets the field
only when the resolved list is non-empty). -/
def streamRestriction (typesRequested : Bool) (normalizedLogTypes : List String)
    (byName50 byRecent50 : List String) : Option (List String) :=
  if typesRequested then
    let available := availableLogTypesOf byName50
    let valid := normalizedLogTypes.filter (fun t => available.contains t)
    let matching :=
      byRecent50.filter (fun s => valid.contains (extractLogTypeFromStreamName s))
    if matching.isEmpty then none else some matching
  else
    if byRecent50.isEmpty then none else some byRecent50

/-! ## pkg/aws/client.go — TailLogs -/

/-- Mutable state the tail loop protects with its mutex (client.go
382-384): the watermark (lastTimestamp, a UnixNano instant) and the set of
keys present in the seenEntries map (its values are always true). -/
structure TailState where
  lastTimestamp : Int
  seenEntries : List String
deriving DecidableEq, Repr

/-- UnixNano of a LogEntry whose timestamp is the UnixMilli instant. -/
def entryNanos (e : LogEntry) : Int := e.timestamp * 1000000

/-- Dedup key (client.go 410): fmt.Sprintf of UnixNano, stream and message,
joined by "-". -/
def entryKey (e : LogEntry) : String :=
  toString (entryNanos e) ++ "-" ++ e.logStream ++ "-" ++ e.message

/-- printAndTrackTimestamp (client.go 405-423): drop the entry if its key
was already seen; otherwise print it, record its key and advance the
watermark only when its instant is strictly after the watermark
(time.Time.After).  Returns the new state and whether the entry was
printed. -/
def printAndTrackTimestamp (s : TailState) (e : LogEntry) : TailState × Bool :=
  if s.seenEntries.contains (entryKey e) then (s, false)
  else if entryNanos e > s.lastTimestamp then
    (⟨entryNanos e, entryKey e :: s.seenEntries⟩, true)
  else (s, false)

/-- Size of the seenEntries map after one tick (client.go 425-440): the
tick's printed entries each record one fresh key; when the tick's GetLogs
call returned an error the loop continues at once (client.go 426-433) and
the cleanup is skipped, otherwise the map is cleared whenever it holds more
than 1000 entries. -/
def tickSeenSize (size added : Nat) (success : Bool) : Nat :=
  let grown := size + added
  if success then (if grown > 1000 then 0 else grown) else grown

/-- Seen-map size after a sequence of ticks, each described by the number of
newly recorded keys and whether its GetLogs call succeeded. -/
def runTicks (size : Nat) (ticks : List (Nat × Bool)) : Nat :=
  ticks.foldl (fun sz t => tickSeenSize sz t.1 t.2) size

/-- Outcome of one iteration of the TailLogs select loop. -/
inductive TickResult where
  | exitOk
  | exitErr (e : String)
  | keepGoing
deriving DecidableEq, Repr

/-- ctx.Done branch of TailLogs (client.go 396-401): a cancelled context
exits without error; any other context error (deadline) is returned. -/
def tailHandleCtxDone (canceled : Bool) (ctxErr : String) : TickResult :=
  if canceled then .exitOk else .exitErr ctxErr

/-- TailLogs' handling of one tick's GetLogs result (client.go 425-433): an
error exits cleanly when the context was cancelled meanwhile, otherwise it
is printed and the loop continues; a nil result continues into cleanup. -/
def tailHandleGetLogs (canceled : Bool) (r : Except (List String) Unit) : TickResult :=
  match r with
  | .error _ => if canceled then .exitOk else .keepGoing
  | .ok _ => .keepGoing

/-- Follow-mode wrapper in the root command (root.go 500-505): a TailLogs
error is suppressed when the context was cancelled. -/
def rootFollowResult (canceled : Bool) (err : Option String) : Option String :=
  match err with
  | some e => if canceled then none else some e
  | none => none

/-! ## cmd/root.go — filter pattern builder (root.go 413-490) -/

/-- Quoting of the include pattern (root.go 424-444): wrap in double quotes
when the pattern neither starts nor ends with a quote character and
contains none of the characters brace, bracket, question mark, asterisk,
hyphen; otherwise pass it through verbatim. -/
def quoteIncludePattern (p : String) : String :=
  if ¬ goStartsWith p "\"" ∧ ¬ goEndsWith p "\"" then
    if ¬ goContainsChar p '\x7b' ∧ ¬ goContainsChar p '[' ∧
       ¬ goContainsChar p '?' ∧ ¬ goContainsChar p '*' ∧
       ¬ goContainsChar p '-' then
      "\"" ++ p ++ "\""
    else p
  else p

/-- Quoting of the ignore pattern (root.go 448-474): same classification,
and the result is always prefixed with the exclusion marker "-". -/
def quoteIgnorePattern (p : String) : String :=
  if ¬ goStartsWith p "\"" ∧ ¬ goEndsWith p "\"" then
    if ¬ goContainsChar p '\x7b' ∧ ¬ goContainsChar p '[' ∧
       ¬ goContainsChar p '?' ∧ ¬ goContainsChar p '*' ∧
       ¬ goContainsChar p '-' then
      "-\"" ++ p ++ "\""
    else "-" ++ p
  else "-" ++ p

/-- Combination of the two patterns into the FilterLogEvents filter string
(root.go 413-490): none when both flags are empty (fp stays nil); an
include-only pattern stands alone, a non-empty ignore pattern is appended
after a space when an include block exists, else it stands alone. -/
def combinePatterns (filterPattern ignoreFilterPattern : String) : Option String :=
  if filterPattern = "" ∧ ignoreFilterPattern = "" then none
  else
    let included := if filterPattern ≠ "" then quoteIncludePattern filterPattern else ""
    let combined :=
      if ignoreFilterPattern ≠ "" then
        (if included ≠ "" then included ++ " " ++ quoteIgnorePattern ignoreFilterPattern
         else quoteIgnorePattern ignoreFilterPattern)
      else included
    if combined ≠ "" then some combined else none

/-- Classification used by the spec's quoting sentence, written from the
spec's words for comparison with the code (needed to state that the code's
rule differs): a term needs quoting iff it does not already start and end
with quote characters, contains none of the structural markers, and does
not itself start with the exclude marker. -/
def specNeedsQuoting (t : String) : Bool :=
  !(goStartsWith t "\"" && goEndsWith t "\"") &&
  !goContainsChar t '\x7b' && !goContainsChar t '[' &&
  !goContainsChar t '?' && !goContainsChar t '*' &&
  !goStartsWith t "-"

/-- The classification the code actually applies (factored from
quoteIncludePattern and quoteIgnorePattern, root.go 424-428 and 454-458). -/
def codeNeedsQuoting (t : String) : Bool :=
  !goStartsWith t "\"" && !goEndsWith t "\"" &&
  !goContainsChar t '\x7b' && !goContainsChar t '[' &&
  !goContainsChar t '?' && !goContainsChar t '*' &&
  !goContainsChar t '-'

/-! ## Helper lemmas -/

theorem wfCount_cons (e : ProviderEvent) (l : List ProviderEvent) :
    wfCount (e :: l) = (if wellFormed e then 1 else 0) + wfCount l := by
  simp only [wfCount, List.filter_cons]
  split <;> simp [Nat.add_comm]

theorem wfTotal_cons (c : Except String (List ProviderEvent))
    (rest : List (Except String (List ProviderEvent))) :
    wfTotal (c :: rest) = callWf c + wfTotal rest := by
  simp [wfTotal]

theorem processPage_cons_malformed (lg : String) (limit t : Nat) (e : ProviderEvent)
    (h : wellFormed e = false) (rest : List ProviderEvent) :
    processPage lg limit t (e :: rest) = processPage lg limit t rest := by
  obtain ⟨ts, sn, msg⟩ := e
  rcases ts with _ | ts <;> rcases sn with _ | sn <;> rcases msg with _ | msg <;>
    simp_all [processPage, wellFormed]

theorem processPage_cons_wf (lg : String) (limit t : Nat) (ts : Int) (sn msg : String)
    (rest : List ProviderEvent) :
    processPage lg limit t (⟨some ts, some sn, some msg⟩ :: rest)
      = if limit > 0 ∧ t ≥ limit then ([], t)
        else ((⟨ts, extractLogLevel msg, extractComponentFromStreamName sn, msg, lg, sn⟩ : LogEntry)
                :: (processPage lg limit (t + 1) rest).1,
              (processPage lg limit (t + 1) rest).2) := by
  simp only [processPage]

theorem processPage_spec (lg : String) (limit : Nat) (hl : 0 < limit) :
    ∀ (evs : List ProviderEvent) (t : Nat), t ≤ limit →
      (processPage lg limit t evs).1.length = min (limit - t) (wfCount evs) ∧
      (processPage lg limit t evs).2 = t + (processPage lg limit t evs).1.length := by
  intro evs
  induction evs with
  | nil => intro t ht; simp [processPage, wfCount]
  | cons e rest ih =>
    intro t ht
    by_cases hwf : wellFormed e = true
    · obtain ⟨ts, sn, msg⟩ := e
      rcases ts with _ | ts <;> rcases sn with _ | sn <;> rcases msg with _ | msg <;>
        simp only [wellFormed, Option.isSome, Bool.false_and, Bool.and_false, Bool.true_and,
          Bool.and_true, Bool.and_self, Bool.false_eq_true] at hwf
      have hw : wellFormed (ProviderEvent.mk (some ts) (some sn) (some msg)) = true := by
        simp [wellFormed]
      rw [processPage_cons_wf, wfCount_cons, if_pos hw]
      by_cases hb : limit > 0 ∧ t ≥ limit
      · have htt : t = limit := Nat.le_antisymm ht hb.2
        rw [if_pos hb]
        constructor
        · simp [htt]
        · simp
      · have hlt : t < limit := by
          rcases Nat.lt_or_ge t limit with h | h
          · exact h
          · exact absurd ⟨hl, h⟩ hb
        obtain ⟨ih1, ih2⟩ := ih (t + 1) (by omega)
        rw [if_neg hb]
        constructor
        · simp only [List.length_cons]
          omega
        · simp only [List.length_cons]
          omega
    · have h0 : wellFormed e = false := by simpa using hwf
      rw [processPage_cons_malformed lg limit t e h0, wfCount_cons, h0]
      simpa using ih t ht

theorem processPage_unlimited (lg : String) :
    ∀ (evs : List ProviderEvent) (t : Nat),
      (processPage lg 0 t evs).1.length = wfCount evs ∧
      (processPage lg 0 t evs).2 = t + wfCount evs := by
  intro evs
  induction evs with
  | nil => intro t; simp [processPage, wfCount]
  | cons e rest ih =>
    intro t
    by_cases hwf : wellFormed e = true
    · obtain ⟨ts, sn, msg⟩ := e
      rcases ts with _ | ts <;> rcases sn with _ | sn <;> rcases msg with _ | msg <;>
        simp only [wellFormed, Option.isSome, Bool.false_and, Bool.and_false, Bool.true_and,
          Bool.and_true, Bool.and_self, Bool.false_eq_true] at hwf
      have hw : wellFormed (ProviderEvent.mk (some ts) (some sn) (some msg)) = true := by
        simp [wellFormed]
      have hno : ¬((0 : Nat) > 0 ∧ t ≥ 0) := by omega
      rw [processPage_cons_wf, wfCount_cons, if_pos hw, if_neg hno]
      obtain ⟨ih1, ih2⟩ := ih (t + 1)
      constructor
      · simp only [List.length_cons]
        omega
      · simp only [List.length_cons]
        omega
    · have h0 : wellFormed e = false := by simpa using hwf
      rw [processPage_cons_malformed lg 0 t e h0, wfCount_cons, h0]
      simpa using ih t

theorem fetchLoop_cons_ok (lg : String) (limit t : Nat) (evs : List ProviderEvent)
    (rest : List (Except String (List ProviderEvent))) :
    fetchLoop lg limit t (.ok evs :: rest)
      = if limit > 0 ∧ (processPage lg limit t evs).2 ≥ limit then
          ((processPage lg limit t evs).1, (processPage lg limit t evs).2, none)
        else if rest.isEmpty || evs.isEmpty then
          ((processPage lg limit t evs).1, (processPage lg limit t evs).2, none)
        else
          ((processPage lg limit t evs).1
             ++ (fetchLoop lg limit (processPage lg limit t evs).2 rest).1,
           (fetchLoop lg limit (processPage lg limit t evs).2 rest).2.1,
           (fetchLoop lg limit (processPage lg limit t evs).2 rest).2.2) := by
  simp only [fetchLoop]

theorem fetchLoop_spec (lg : String) (limit : Nat) (hl : 0 < limit) :
    ∀ (calls : List (Except String (List ProviderEvent))),
      (∀ c ∈ calls, ∃ evs, c = Except.ok evs ∧ evs ≠ []) →
      ∀ t, t ≤ limit →
        (fetchLoop lg limit t calls).1.length = min (limit - t) (wfTotal calls) ∧
        (fetchLoop lg limit t calls).2.1 = t + (fetchLoop lg limit t calls).1.length ∧
        (fetchLoop lg limit t calls).2.2 = none := by
  intro calls
  induction calls with
  | nil => intro _ t ht; simp [fetchLoop, wfTotal]
  | cons c rest ih =>
    intro hgood t ht
    obtain ⟨evs, rfl, hne⟩ : ∃ evs, c = Except.ok evs ∧ evs ≠ [] :=
      hgood c (List.mem_cons_self c rest)
    obtain ⟨p1, p2⟩ := processPage_spec lg limit hl evs t ht
    have hwct : wfTotal (Except.ok evs :: rest) = wfCount evs + wfTotal rest := by
      simp [wfTotal_cons, callWf]
    rw [fetchLoop_cons_ok]
    by_cases hb : limit > 0 ∧ (processPage lg limit t evs).2 ≥ limit
    · have hb2 := hb.2
      rw [if_pos hb]
      have h1 : (processPage lg limit t evs).1.length = limit - t := by omega
      refine ⟨?_, p2, rfl⟩
      dsimp only
      rw [hwct]
      omega
    · have hlt : (processPage lg limit t evs).2 < limit := by
        rcases Nat.lt_or_ge (processPage lg limit t evs).2 limit with h | h
        · exact h
        · exact absurd ⟨hl, h⟩ hb
      have hlen : (processPage lg limit t evs).1.length = wfCount evs := by omega
      rw [if_neg hb]
      have hev : evs.isEmpty = false := by
        cases hevs : evs.isEmpty
        · rfl
        · exact absurd (List.isEmpty_iff.mp hevs) hne
      by_cases hre : rest.isEmpty || evs.isEmpty
      · rw [if_pos hre]
        have hrest : rest = [] := by
          rw [hev, Bool.or_false] at hre
          exact List.isEmpty_iff.mp hre
        subst hrest
        have h0 : wfTotal ([] : List (Except String (List ProviderEvent))) = 0 := by
          simp [wfTotal]
        refine ⟨?_, p2, rfl⟩
        dsimp only
        rw [hwct, h0]
        omega
      · rw [if_neg hre]
        obtain ⟨ih1, ih2, ih3⟩ :=
          ih (fun c hc => hgood c (List.mem_cons_of_mem _ hc))
            (processPage lg limit t evs).2 (by omega)
        refine ⟨?_, ?_, ih3⟩
        · dsimp only
          simp only [List.length_append]
          rw [hwct]
          omega
        · dsimp only
          simp only [List.length_append]
          omega

theorem fetchLoop_unlimited (lg : String) :
    ∀ (calls : List (Except String (List ProviderEvent))),
      (∀ c ∈ calls, ∃ evs, c = Except.ok evs ∧ evs ≠ []) →
      ∀ t, (fetchLoop lg 0 t calls).1.length = wfTotal calls ∧
        (fetchLoop lg 0 t calls).2.2 = none := by
  intro calls
  induction calls with
  | nil => intro _ t; simp [fetchLoop, wfTotal]
  | cons c rest ih =>
    intro hgood t
    obtain ⟨evs, rfl, hne⟩ : ∃ evs, c = Except.ok evs ∧ evs ≠ [] :=
      hgood c (List.mem_cons_self c rest)
    obtain ⟨p1, p2⟩ := processPage_unlimited lg evs t
    have hwct : wfTotal (Except.ok evs :: rest) = wfCount evs + wfTotal rest := by
      simp [wfTotal_cons, callWf]
    have hb : ¬((0 : Nat) > 0 ∧ (processPage lg 0 t evs).2 ≥ 0) := by omega
    rw [fetchLoop_cons_ok, if_neg hb]
    have hev : evs.isEmpty = false := by
      cases hevs : evs.isEmpty
      · rfl
      · exact absurd (List.isEmpty_iff.mp hevs) hne
    by_cases hre : rest.isEmpty || evs.isEmpty
    · rw [if_pos hre]
      have hrest : rest = [] := by
        rw [hev, Bool.or_false] at hre
        exact List.isEmpty_iff.mp hre
      subst hrest
      have h0 : wfTotal ([] : List (Except String (List ProviderEvent))) = 0 := by
        simp [wfTotal]
      refine ⟨?_, rfl⟩
      dsimp only
      rw [hwct, h0]
      omega
    · rw [if_neg hre]
      obtain ⟨ih1, ih2⟩ :=
        ih (fun c hc => hgood c (List.mem_cons_of_mem _ hc)) (processPage lg 0 t evs).2
      refine ⟨?_, ih2⟩
      dsimp only
      simp only [List.length_append]
      rw [hwct]
      omega

theorem fetchLoop_warning_shape (lg : String) (limit : Nat) :
    ∀ calls t w, (fetchLoop lg limit t calls).2.2 = some w →
      ∃ m, w = "warning: failed to get logs from log group '" ++ lg ++ "': " ++ m := by
  intro calls
  induction calls with
  | nil => intro t w h; simp [fetchLoop] at h
  | cons c rest ih =>
    intro t w h
    cases c with
    | error msg =>
      simp only [fetchLoop] at h
      exact ⟨msg, (Option.some_inj.mp h).symm⟩
    | ok evs =>
      rw [fetchLoop_cons_ok] at h
      split_ifs at h
      all_goals
        exact ih (processPage lg limit t evs).2 w (by simpa using h)

theorem fetchLoop_ok_no_warning (lg : String) (limit : Nat) :
    ∀ calls, (∀ c ∈ calls, ∃ evs, c = Except.ok evs) →
      ∀ t, (fetchLoop lg limit t calls).2.2 = none := by
  intro calls
  induction calls with
  | nil => intro _ t; simp [fetchLoop]
  | cons c rest ih =>
    intro hgood t
    obtain ⟨evs, rfl⟩ : ∃ evs, c = Except.ok evs := hgood c (List.mem_cons_self c rest)
    rw [fetchLoop_cons_ok]
    split_ifs
    · rfl
    · rfl
    · exact ih (fun c hc => hgood c (List.mem_cons_of_mem _ hc)) _

theorem quoteIncludePattern_ne_empty (p : String) (hp : p ≠ "") :
    quoteIncludePattern p ≠ "" := by
  unfold quoteIncludePattern
  split
  · split
    · intro h
      have := congrArg String.data h
      simp [String.data_append] at this
    · exact hp
  · exact hp

theorem quoteIgnorePattern_starts_dash (p : String) :
    goStartsWith (quoteIgnorePattern p) "-" = true := by
  unfold quoteIgnorePattern goStartsWith
  split
  · split <;> simp [String.data_append, List.cons_prefix_cons]
  · simp [String.data_append, List.cons_prefix_cons]

theorem quoteIgnorePattern_ne_empty (p : String) : quoteIgnorePattern p ≠ "" := by
  unfold quoteIgnorePattern
  split
  · split <;>
      · intro h
        have h2 := congrArg String.data h
        simp [String.data_append] at h2
  · intro h
    have h2 := congrArg String.data h
    simp [String.data_append] at h2

theorem runTicks_all_success_le (ticks : List (Nat × Bool)) :
    ∀ sz, sz ≤ 1000 → (∀ t ∈ ticks, t.2 = true) → runTicks sz ticks ≤ 1000 := by
  induction ticks with
  | nil => intro sz h _; simpa [runTicks] using h
  | cons t rest ih =>
    intro sz hsz hall
    have ht : t.2 = true := hall t (List.mem_cons_self t rest)
    have h1 : tickSeenSize sz t.1 t.2 ≤ 1000 := by
      rw [ht]
      simp only [tickSeenSize]
      split_ifs <;> omega
    have h2 := ih (tickSeenSize sz t.1 t.2) h1 (fun x hx => hall x (List.mem_cons_of_mem _ hx))
    simpa [runTicks, List.foldl] using h2

theorem getLogs_length (limit : Nat) (groups : List GroupFetch) :
    (getLogs limit groups).1.length
      = (groups.map (fun g => (runGroup limit g).1.length)).sum := by
  simp only [getLogs, List.length_flatten, List.map_map]
  rfl

/-! ## Claims -/

/-- C3: the spec says a term is wrapped in double quotes iff it does not
already start-and-end with quotes, has no structural markers, and does not
start with the exclude marker.  This is refuted twice: the term "a-b"
satisfies the spec's quoting condition but the code passes it through
verbatim (the code tests whether the hyphen occurs anywhere, not only as a
leading exclude marker), and the term consisting of a leading quote plus
"abc" also satisfies the spec's condition (it does not both start and end
with quotes) yet is passed through verbatim (the code passes a term through
when it starts with a quote or ends with one). -/
theorem c3_counterexample :
    specNeedsQuoting "a-b" = true ∧ quoteIncludePattern "a-b" = "a-b" ∧
    ("a-b" : String) ≠ "\"a-b\"" ∧
    specNeedsQuoting "\"abc" = true ∧ quoteIncludePattern "\"abc" = "\"abc" ∧
    ("\"abc" : String) ≠ "\"\"abc\"" := by
  refine ⟨by decide, by decide, by decide, by decide, by decide, by decide⟩

/-- C3 amended: both the include and the exclude classification wrap a term
in double quotes iff the term neither starts with nor ends with a quote
character and contains none of the characters brace, bracket, question
mark, asterisk and hyphen anywhere; otherwise the term passes through
verbatim (the exclude term in addition always receives the "-" marker). -/
theorem c3_amended_quoting_rule (t : String) :
    quoteIncludePattern t = (if codeNeedsQuoting t then "\"" ++ t ++ "\"" else t) ∧
    quoteIgnorePattern t = (if codeNeedsQuoting t then "-\"" ++ t ++ "\"" else "-" ++ t) := by
  unfold quoteIncludePattern quoteIgnorePattern codeNeedsQuoting
  cases h1 : goStartsWith t "\"" <;> cases h2 : goEndsWith t "\"" <;>
    cases h3 : goContainsChar t '\x7b' <;> cases h4 : goContainsChar t '[' <;>
    cases h5 : goContainsChar t '?' <;> cases h6 : goContainsChar t '*' <;>
    cases h7 : goContainsChar t '-' <;> simp

/-- Witness for c3_amended_quoting_rule at the concrete term error. -/
theorem c3_amended_quoting_rule_witness :
    quoteIncludePattern "error"
      = (if codeNeedsQuoting "error" then "\"" ++ "error" ++ "\"" else "error") :=
  (c3_amended_quoting_rule "error").1

/-- C4: combining the patterns yields the quoted include alone, an
unquoted wildcard include alone, the dash-prefixed quoted exclude alone,
and for both present the include block, a space, then the dash-prefixed
exclude; in general a non-empty exclude term is classified, prefixed with
"-", and appended space-separated after the include block (or stands alone
when there is no include). -/
theorem c4_combine_examples :
    combinePatterns "error" "" = some "\"error\"" ∧
    combinePatterns "a*b" "" = some "a*b" ∧
    combinePatterns "" "debug" = some "-\"debug\"" ∧
    combinePatterns "x" "y" = some "\"x\" -\"y\"" ∧
    (∀ i e : String, i ≠ "" → e ≠ "" →
      combinePatterns i e = some (quoteIncludePattern i ++ " " ++ quoteIgnorePattern e)) ∧
    (∀ e : String, e ≠ "" → combinePatterns "" e = some (quoteIgnorePattern e)) ∧
    (∀ e : String, goStartsWith (quoteIgnorePattern e) "-" = true) := by
  refine ⟨by decide, by decide, by decide, by decide, ?_, ?_, quoteIgnorePattern_starts_dash⟩
  · intro i e hi he
    have hq : quoteIncludePattern i ≠ "" := quoteIncludePattern_ne_empty i hi
    have hcomb : quoteIncludePattern i ++ " " ++ quoteIgnorePattern e ≠ "" := by
      intro h
      have h2 := congrArg String.data h
      simp [String.data_append] at h2
    unfold combinePatterns
    split_ifs <;> simp_all
  · intro e he
    have hig := quoteIgnorePattern_ne_empty e
    unfold combinePatterns
    split_ifs <;> simp_all

/-- Witness for c4_combine_examples: the general include-plus-exclude shape at
the concrete input x, y. -/
theorem c4_combine_examples_witness :
    combinePatterns "x" "y" = some (quoteIncludePattern "x" ++ " " ++ quoteIgnorePattern "y") :=
  c4_combine_examples.2.2.2.2.1 "x" "y" (by decide) (by decide)

/-- C1: the spec claims one shared budget across all concurrently fetched
groups, with total deliveries equal to min(limit, total available).  In the
code the totalEvents counter is declared inside each goroutine, so the limit
is enforced per group: with limit 1 and two groups holding one well-formed
event each (total available 2), the sink receives 2 entries, exceeding the
limit, where the claim predicts min 1 2 = 1. -/
theorem c1_counterexample :
    (let e : ProviderEvent := ⟨some 1, some "kube-apiserver-abc", some "I m"⟩
     let g1 : GroupFetch := ⟨"g1", .pages [.ok [e]]⟩
     let g2 : GroupFetch := ⟨"g2", .pages [.ok [e]]⟩
     groupAvail g1 + groupAvail g2 = 2 ∧
     (getLogs 1 [g1, g2]).1.length = 2 ∧
     (2 : Nat) ≠ min 1 2 ∧ ¬(2 ≤ (1 : Nat))) := by
  decide

/-- C1 amended: the delivery limit is enforced per log group, not globally.
For limit > 0, over groups whose pagination runs cleanly, each group
independently delivers exactly min(limit, its available well-formed
events), so the total is the sum of those per-group minima — it can exceed
limit when several groups hold events (it coincides with the claim exactly
when at most one group delivers anything, e.g. the single log group an EKS
cluster has in practice).  For limit == 0 every available well-formed event
of every group is delivered. -/
theorem c1_amended_per_group_budget (groups : List GroupFetch)
    (hg : ∀ g ∈ groups, GoodGroup g) :
    (∀ limit, 0 < limit →
      (getLogs limit groups).1.length
        = (groups.map (fun g => min limit (groupAvail g))).sum) ∧
    (getLogs 0 groups).1.length = (groups.map groupAvail).sum := by
  constructor
  · intro limit hl
    rw [getLogs_length]
    refine congrArg List.sum (List.map_congr_left ?_)
    intro g hm
    obtain ⟨calls, hdata, hcalls⟩ := hg g hm
    have h1 := (fetchLoop_spec g.name limit hl calls hcalls 0 (by omega)).1
    have h2 : groupAvail g = wfTotal calls := by simp [groupAvail, hdata]
    simp only [runGroup, hdata]
    rw [h1, h2]
    omega
  · rw [getLogs_length]
    refine congrArg List.sum (List.map_congr_left ?_)
    intro g hm
    obtain ⟨calls, hdata, hcalls⟩ := hg g hm
    have h1 := (fetchLoop_unlimited g.name calls hcalls 0).1
    have h2 : groupAvail g = wfTotal calls := by simp [groupAvail, hdata]
    simp only [runGroup, hdata]
    rw [h1, h2]

/-- Witness for c1_amended_per_group_budget: one clean group with two
well-formed events and limit 1 delivers min 1 2 = 1 entry. -/
theorem c1_amended_per_group_budget_witness :
    (getLogs 1 [⟨"g1", .pages [.ok [⟨some 1, some "kube-apiserver-b", some "I m"⟩,
                                     ⟨some 2, some "kube-apiserver-b", some "W m"⟩]]⟩]).1.length
      = (([⟨"g1", .pages [.ok [⟨some 1, some "kube-apiserver-b", some "I m"⟩,
                               ⟨some 2, some "kube-apiserver-b", some "W m"⟩]]⟩] :
           List GroupFetch).map (fun g => min 1 (groupAvail g))).sum := by
  refine (c1_amended_per_group_budget _ ?_).1 1 (by omega)
  intro g hm
  rw [List.mem_singleton] at hm
  subst hm
  refine ⟨_, rfl, ?_⟩
  intro c hc
  rw [List.mem_singleton] at hc
  subst hc
  exact ⟨_, rfl, by decide⟩

/-- C2: the spec says an unseen entry is printed whenever its timestamp is
not earlier than (at least) the watermark.  The code prints only when the
timestamp is strictly after the watermark (time.Time.After): an unseen
entry whose instant equals the watermark is discarded, its key is not
recorded, and the watermark does not move. -/
theorem c2_counterexample :
    (let e : LogEntry := ⟨5, "info", "kube-apiserver", "I hello", "g", "kube-apiserver-abc"⟩
     let s : TailState := ⟨5000000, []⟩
     s.seenEntries.contains (entryKey e) = false ∧
     entryNanos e ≥ s.lastTimestamp ∧
     printAndTrackTimestamp s e = (s, false)) := by
  decide

/-- C2 amended: an entry already keyed in the seen index is discarded with
no state change; an unseen entry strictly later than the watermark is
printed, its key recorded and the watermark advanced to its instant; an
unseen entry not strictly later is discarded.  The watermark never
decreases, and an entry whose instant is at or below the watermark is never
printed — so an event observed by two overlapping ticks is printed exactly
once: the second observation is blocked by the seen index, or by the
watermark if the index was cleared in between. -/
theorem c2_amended_tail_dedup (s : TailState) (e : LogEntry) :
    (s.seenEntries.contains (entryKey e) = true → printAndTrackTimestamp s e = (s, false)) ∧
    (s.seenEntries.contains (entryKey e) = false → entryNanos e > s.lastTimestamp →
      printAndTrackTimestamp s e = (⟨entryNanos e, entryKey e :: s.seenEntries⟩, true)) ∧
    (s.seenEntries.contains (entryKey e) = false → entryNanos e ≤ s.lastTimestamp →
      printAndTrackTimestamp s e = (s, false)) ∧
    s.lastTimestamp ≤ (printAndTrackTimestamp s e).1.lastTimestamp ∧
    (entryNanos e ≤ s.lastTimestamp → (printAndTrackTimestamp s e).2 = false) := by
  refine ⟨?_, ?_, ?_, ?_, ?_⟩
  · intro h
    unfold printAndTrackTimestamp
    rw [if_pos h]
  · intro h1 h2
    unfold printAndTrackTimestamp
    rw [if_neg (by simpa using h1), if_pos h2]
  · intro h1 h2
    unfold printAndTrackTimestamp
    rw [if_neg (by simpa using h1), if_neg (by omega)]
  · unfold printAndTrackTimestamp
    split_ifs with h1 h2
    · exact le_refl _
    · exact le_of_lt h2
    · exact le_refl _
  · intro h
    unfold printAndTrackTimestamp
    split_ifs with h1 h2
    · rfl
    · omega
    · rfl

/-- Witness for c2_amended_tail_dedup: a fresh entry strictly past the
watermark is printed and recorded. -/
theorem c2_amended_tail_dedup_witness :
    printAndTrackTimestamp ⟨4000000, []⟩
        ⟨5, "info", "kube-apiserver", "I hello", "g", "kube-apiserver-abc"⟩
      = (⟨entryNanos ⟨5, "info", "kube-apiserver", "I hello", "g", "kube-apiserver-abc"⟩,
          entryKey ⟨5, "info", "kube-apiserver", "I hello", "g", "kube-apiserver-abc"⟩ :: []⟩,
         true) :=
  (c2_amended_tail_dedup ⟨4000000, []⟩
      ⟨5, "info", "kube-apiserver", "I hello", "g", "kube-apiserver-abc"⟩).2.1
    (by decide) (by decide)

/-- C5: the spec says each page request is bounded by min(1000, remaining
budget).  The code assigns the constant page size 1000 to input.Limit once,
before the loop, so with limit 5 and an untouched budget the first (and
only) request still asks for 1000, not min 1000 5 = 5. -/
theorem c5_counterexample :
    (let e : ProviderEvent := ⟨some 1, some "kube-apiserver-abc", some "I m"⟩
     requestLimits "g" 5 0 [.ok [e, e, e, e, e, e]] = [1000] ∧
     (1000 : Nat) ≠ min 1000 (5 - 0)) := by
  decide

/-- C5 amended: every FilterLogEvents request issued during a retrieval
carries the fixed page size 1000, independent of the limit and of how much
budget remains. -/
theorem c5_amended_fixed_page_size (lg : String) (limit : Nat) :
    ∀ calls t, ∀ x ∈ requestLimits lg limit t calls, x = 1000 := by
  intro calls
  induction calls with
  | nil => intro t x hx; simp [requestLimits] at hx
  | cons c rest ih =>
    intro t x hx
    cases c with
    | error msg =>
      simp only [requestLimits, List.mem_singleton] at hx
      rw [hx]
      rfl
    | ok evs =>
      simp only [requestLimits] at hx
      by_cases hb : limit > 0 ∧ (processPage lg limit t evs).2 ≥ limit
      · rw [if_pos hb] at hx
        simpa [pageSize] using hx
      · rw [if_neg hb] at hx
        by_cases hre : rest.isEmpty || evs.isEmpty
        · rw [if_pos hre] at hx
          simpa [pageSize] using hx
        · rw [if_neg hre] at hx
          rcases List.mem_cons.mp hx with h | h
          · rw [h]
            rfl
          · exact ih _ x h

/-- Witness for c5_amended_fixed_page_size at a concrete request list. -/
theorem c5_amended_fixed_page_size_witness :
    (1000 : Nat) ∈ requestLimits "g" 5 0 [.ok [⟨some 1, some "kube-apiserver-b", some "I m"⟩]] ∧
    (1000 : Nat) = 1000 :=
  ⟨by decide,
   c5_amended_fixed_page_size "g" 5
     [.ok [⟨some 1, some "kube-apiserver-b", some "I m"⟩]] 0 1000 (by decide)⟩

/-- C6: cancellation is not converted to nil at every layer.  When the
shared context is cancelled during a retrieval, the failed provider call is
pushed as a per-group warning and GetLogs returns an aggregate error naming
it — only TailLogs and the root command convert that to nil.  Concretely, a
retrieval whose single group's query fails with the provider's cancellation
error yields an error, not a nil result. -/
theorem c6_counterexample :
    (getLogs 0 [⟨"g", .pages [.error "context canceled"]⟩]).2
      = ["warning: failed to get logs from log group 'g': context canceled"] ∧
    getLogsResult 0 [⟨"g", .pages [.error "context canceled"]⟩] ≠ .ok () := by
  have h2 : (getLogs 0 [⟨"g", .pages [.error "context canceled"]⟩]).2
      = ["warning: failed to get logs from log group 'g': context canceled"] := by decide
  refine ⟨h2, ?_⟩
  simp [getLogsResult, h2]

/-- C6 amended: when the shared context is cancelled, TailLogs returns nil
from both of its observation points — the select on ctx.Done and a failed
tick GetLogs call — and never returns an error while cancelled, and the
root command's follow wrapper also converts a TailLogs error to nil;
GetLogs itself, however, surfaces a cancelled provider call inside its
aggregate error, which those callers then convert to nil. -/
theorem c6_amended_cancellation :
    (∀ e, tailHandleCtxDone true e = TickResult.exitOk) ∧
    (∀ errs, tailHandleGetLogs true (Except.error errs) = TickResult.exitOk) ∧
    (∀ r msg, tailHandleGetLogs true r ≠ TickResult.exitErr msg) ∧
    (∀ err, rootFollowResult true err = none) := by
  refine ⟨fun e => rfl, fun errs => rfl, ?_, ?_⟩
  · intro r msg
    cases r <;> simp [tailHandleGetLogs]
  · intro err
    cases err <;> simp [rootFollowResult]

/-- Witness for c6_amended_cancellation: a cancelled context observed at the
tick wait exits without error. -/
theorem c6_amended_cancellation_witness :
    tailHandleCtxDone true "context deadline exceeded" = TickResult.exitOk :=
  c6_amended_cancellation.1 "context deadline exceeded"

/-- C7: the warnings GetLogs returns are exactly the per-group failures, in
group order; the call returns nil iff no group failed; every group's
delivered entries appear in the sink output whether or not other groups
failed (nothing is rolled back); and each warning names its failing group. -/
theorem c7_partial_failure (limit : Nat) (groups : List GroupFetch) :
    ((getLogs limit groups).2 = groups.filterMap (fun g => (runGroup limit g).2)) ∧
    (getLogsResult limit groups = .ok () ↔ ∀ g ∈ groups, (runGroup limit g).2 = none) ∧
    (∀ g ∈ groups, ((runGroup limit g).1).Sublist (getLogs limit groups).1) ∧
    (∀ g ∈ groups, ∀ w, (runGroup limit g).2 = some w → g.name.data <:+: w.data) := by
  refine ⟨rfl, ?_, ?_, ?_⟩
  · rcases hE : (getLogs limit groups).2 with _ | ⟨e, rest⟩
    · have hE' : groups.filterMap (fun g => (runGroup limit g).2) = [] := hE
      simp only [getLogsResult, hE]
      constructor
      · intro _ g hm
        exact (List.filterMap_eq_nil_iff.mp hE') g hm
      · intro _
        trivial
    · have hE' : groups.filterMap (fun g => (runGroup limit g).2) = e :: rest := hE
      simp only [getLogsResult, hE]
      constructor
      · intro h
        exact absurd h (by simp)
      · intro hall
        exfalso
        rw [List.filterMap_eq_nil_iff.mpr hall] at hE'
        exact List.noConfusion hE'
  · intro g hm
    have h1 : (runGroup limit g).1 ∈ groups.map (fun g => (runGroup limit g).1) :=
      List.mem_map_of_mem _ hm
    exact List.sublist_flatten_of_mem h1
  · intro g hm w hw
    cases hdata : g.data with
    | streamsErr msg =>
      simp only [runGroup, hdata, Option.some.injEq] at hw
      subst hw
      refine ⟨"warning: failed to describe log streams for log group '".data,
              ("': " ++ msg).data, ?_⟩
      simp [String.data_append]
    | pages calls =>
      simp only [runGroup, hdata] at hw
      obtain ⟨m, rfl⟩ := fetchLoop_warning_shape g.name limit calls 0 w hw
      refine ⟨"warning: failed to get logs from log group '".data,
              ("': " ++ m).data, ?_⟩
      simp [String.data_append]

/-- Witness for c7_partial_failure: with three groups of which exactly the
second fails, both succeeding groups' entries are delivered and the single
aggregate error names the failing group. -/
theorem c7_partial_failure_witness :
    ((runGroup 0 (⟨"g1", .pages [.ok [⟨some 1, some "kube-apiserver-b", some "I m"⟩]]⟩ :
        GroupFetch)).1).Sublist
      (getLogs 0 [⟨"g1", .pages [.ok [⟨some 1, some "kube-apiserver-b", some "I m"⟩]]⟩,
                  ⟨"g2", .streamsErr "boom"⟩,
                  ⟨"g3", .pages [.ok [⟨some 2, some "kube-apiserver-b", some "W m"⟩]]⟩]).1 :=
  (c7_partial_failure 0
      [⟨"g1", .pages [.ok [⟨some 1, some "kube-apiserver-b", some "I m"⟩]]⟩,
       ⟨"g2", .streamsErr "boom"⟩,
       ⟨"g3", .pages [.ok [⟨some 2, some "kube-apiserver-b", some "W m"⟩]]⟩]).2.2.1
    _ (by simp)

/-- C8: a provider event missing its timestamp, stream name or message is
skipped silently: removing it from a page changes neither the entries
handed to the sink nor the totalEvents counter, and warnings can only ever
arise from failed calls — a retrieval whose calls all succeed reports no
error no matter what events the pages hold. -/
theorem c8_malformed_skipped (lg : String) (limit t : Nat)
    (pre post : List ProviderEvent) (e : ProviderEvent)
    (h : wellFormed e = false) :
    processPage lg limit t (pre ++ e :: post) = processPage lg limit t (pre ++ post) ∧
    (∀ calls, (∀ c ∈ calls, ∃ evs, c = Except.ok evs) →
      ∀ t2, (fetchLoop lg limit t2 calls).2.2 = none) := by
  refine ⟨?_, fun calls hc t2 => fetchLoop_ok_no_warning lg limit calls hc t2⟩
  induction pre generalizing t with
  | nil => simpa using processPage_cons_malformed lg limit t e h post
  | cons p pre ih =>
    by_cases hwf : wellFormed p = true
    · obtain ⟨ts, sn, msg⟩ := p
      rcases ts with _ | ts <;> rcases sn with _ | sn <;> rcases msg with _ | msg <;>
        simp only [wellFormed, Option.isSome, Bool.false_and, Bool.and_false, Bool.true_and,
          Bool.and_true, Bool.and_self, Bool.false_eq_true] at hwf
      rw [List.cons_append, List.cons_append, processPage_cons_wf, processPage_cons_wf,
        ih (t + 1)]
    · have h0 : wellFormed p = false := by simpa using hwf
      rw [List.cons_append, List.cons_append,
        processPage_cons_malformed lg limit t p h0,
        processPage_cons_malformed lg limit t p h0, ih t]

/-- Witness for c8_malformed_skipped: dropping a concrete timestamp-less
event from the middle of a page leaves the processing result unchanged. -/
theorem c8_malformed_skipped_witness :
    processPage "g" 3 0
        ([⟨some 1, some "kube-apiserver-b", some "I m"⟩]
          ++ (⟨none, some "kube-apiserver-b", some "I bad"⟩ : ProviderEvent)
            :: [⟨some 2, some "kube-apiserver-b", some "W m"⟩])
      = processPage "g" 3 0
          ([⟨some 1, some "kube-apiserver-b", some "I m"⟩]
            ++ [⟨some 2, some "kube-apiserver-b", some "W m"⟩]) :=
  (c8_malformed_skipped "g" 3 0
      [⟨some 1, some "kube-apiserver-b", some "I m"⟩]
      [⟨some 2, some "kube-apiserver-b", some "W m"⟩]
      ⟨none, some "kube-apiserver-b", some "I bad"⟩ (by decide)).1

/-- C9: the cleanup that clears the seen-entry index runs only on ticks
whose GetLogs call returned nil; a tick that ends in an error skips it.
Starting empty, a successful tick recording 600 keys followed by a failing
tick recording 600 more leaves the index at 1200 entries — above the 1000
cap and not cleared, where the claim says any post-tick excess is pruned. -/
theorem c9_counterexample :
    runTicks 0 [(600, true), (600, false)] = 1200 ∧ 1200 > 1000 := by
  decide

/-- C9 amended: on every tick whose GetLogs call succeeds the index is
cleared whenever it exceeds 1000 entries, so after any successful tick its
size is at most 1000 and stays so across arbitrarily many successful ticks;
a tick that ends in an error skips the check, so the size can exceed the
cap (by the entries added that tick) while errors persist. -/
theorem c9_amended_prune (sz a : Nat) (ticks : List (Nat × Bool)) :
    tickSeenSize sz a true ≤ 1000 ∧
    tickSeenSize sz a false = sz + a ∧
    (sz ≤ 1000 → (∀ t ∈ ticks, t.2 = true) → runTicks sz ticks ≤ 1000) := by
  refine ⟨?_, rfl, fun h1 h2 => runTicks_all_success_le ticks sz h1 h2⟩
  simp only [tickSeenSize]
  split_ifs <;> omega

/-- Witness for c9_amended_prune: two successful ticks of 600 fresh keys
each stay within the cap. -/
theorem c9_amended_prune_witness :
    runTicks 0 [(600, true), (600, true)] ≤ 1000 :=
  (c9_amended_prune 0 0 [(600, true), (600, true)]).2.2 (by decide) (by decide)

/-- C10: stream resolution does not always confine the event query to the
50 most-recently-active streams.  A group with 51 streams — one api stream
that is the least recently active, and 50 more recent audit streams — has
"api" among its available types (the availability scan lists streams in
default name order, where the api stream sorts first), yet none of the 50
most-recent streams match the requested type, so the resolved list is empty
and the FilterLogEvents request carries no stream restriction at all: the
unrestricted query ranges over every stream, and an event living only in
the api stream — outside the 50 most recent — is delivered. -/
theorem c10_counterexample :
    (let byName50 : List String :=
       "kube-apiserver-aaa"
         :: (List.range 49).map (fun i => "kube-apiserver-audit-" ++ toString i)
     let byRecent50 : List String :=
       (List.range 50).map (fun i => "kube-apiserver-audit-" ++ toString i)
     (availableLogTypesOf byName50).contains "api" = true ∧
     normalizeLogType "api" = "api" ∧
     streamRestriction true ["api"] byName50 byRecent50 = none ∧
     byRecent50.contains "kube-apiserver-aaa" = false ∧
     ((processPage "g" 100 0 [⟨some 5, some "kube-apiserver-aaa", some "I x"⟩]).1.map
        (fun en => en.logStream)) = ["kube-apiserver-aaa"]) := by
  decide

/-- C10 amended: every stream listing passes Limit 50, and whenever the
resolved restriction is present it holds at most 50 streams, all drawn from
the recency-ordered listing; but the availability scan uses the default
name-ordered listing, and when the per-group resolved stream set is empty
(requested types match none of the 50 most recently active streams) the
event query is issued with no stream restriction and can deliver events
from any stream of the group. -/
theorem c10_amended_stream_cap (typesRequested : Bool)
    (nts byName50 byRecent50 : List String) (h50 : byRecent50.length ≤ 50) :
    ∀ l, streamRestriction typesRequested nts byName50 byRecent50 = some l →
      l.length ≤ 50 ∧ ∀ s ∈ l, s ∈ byRecent50 := by
  intro l hl
  unfold streamRestriction at hl
  cases typesRequested with
  | false =>
    simp only [Bool.false_eq_true, if_false] at hl
    split_ifs at hl
    obtain rfl : byRecent50 = l := Option.some_inj.mp hl
    exact ⟨h50, fun s hs => hs⟩
  | true =>
    simp only [if_true] at hl
    split_ifs at hl
    obtain rfl :
        byRecent50.filter (fun s =>
          (nts.filter (fun t => (availableLogTypesOf byName50).contains t)).contains
            (extractLogTypeFromStreamName s)) = l :=
      Option.some_inj.mp hl
    constructor
    · exact le_trans (List.length_filter_le _ _) h50
    · intro s hs
      exact List.mem_of_mem_filter hs

/-- Witness for c10_amended_stream_cap: without a type filter the
restriction is the recency listing itself. -/
theorem c10_amended_stream_cap_witness :
    (["kube-apiserver-audit-0"] : List String).length ≤ 50 ∧
    ∀ s ∈ (["kube-apiserver-audit-0"] : List String),
      s ∈ (["kube-apiserver-audit-0"] : List String) :=
  c10_amended_stream_cap false [] [] ["kube-apiserver-audit-0"] (by decide)
    ["kube-apiserver-audit-0"] (by decide)

end Ekslogs

